import Mathlib

/-!
Verification of the HDR tone-mapping / Poisson-editing kernels of
`src/your_code_here.h`.

Embedding conventions:
* C++ `float` samples are modelled as exact rationals (`ℚ`); the claims
  under study are exact algebraic statements about the arithmetic the
  code performs, not about rounding.
* An image buffer `data[y*width+x]` is modelled as a total function
  `ℤ → ℤ → ℚ` indexed by the coordinates `(x, y)`; the row-major offset
  `y*width + x` is injective on the in-range domain `0 ≤ x < width`,
  `0 ≤ y < height`, so the two views coincide.  Every read the source
  performs is guarded to be in range.  A freshly constructed image is
  zero-filled, so positions a loop never writes hold `0`.
* The transcendental library calls `exp` and `pow` are abstracted as
  function parameters (`E : ℚ → ℚ`, `P : ℚ → ℚ → ℚ`): the claims about
  the functions using them are order-of-operations identities that hold
  for any interpretation of these black boxes.
-/

/-- A `glm::vec3` RGB sample. -/
structure Vec3 where
  r : ℚ
  g : ℚ
  b : ℚ
deriving DecidableEq

/-- An `ImageFloat`: scalar field with width, height and row-major data,
modelled as a function of the pixel coordinates. -/
structure ImageFloat where
  width : ℕ
  height : ℕ
  data : ℤ → ℤ → ℚ

/-- An `ImageRGB`: three-channel field. -/
structure ImageRGB where
  width : ℕ
  height : ℕ
  data : ℤ → ℤ → Vec3

/-- An `ImageGradient`: pair (dx, dy) of scalar fields. -/
structure ImageGradient where
  dx : ImageFloat
  dy : ImageFloat

/-- `getImageOffset`: row-major offset of pixel `(x, y)`, `y*width + x`
(the embedding indexes `data` by `(x, y)` directly; this offset is
injective on the in-range coordinates, so the views agree). -/
def getImageOffset (width x y : ℤ) : ℤ :=
  y * width + x

/-- The in-range test of a `width × height` pixel loop:
`0 ≤ x < width ∧ 0 ≤ y < height`. -/
abbrev inBounds (width height : ℕ) (x y : ℤ) : Prop :=
  0 ≤ x ∧ x < (width : ℤ) ∧ 0 ≤ y ∧ y < (height : ℤ)

/-- Modelled from the spec: `helpers.h` (not among the examined sources)
defines the `ImageFloat(width, height)` constructor; per spec §4.5 a
freshly constructed field is zero-filled ("`next` = a freshly zeroed
field"). -/
def ImageFloat.ofSize (w h : ℕ) : ImageFloat :=
  { width := w, height := h, data := fun _ _ => 0 }

/-- `getRGBImageMinMax` from `your_code_here.h` lines 33-64: fold over
all pixels in row-major order starting from the sentinel accumulator
`(min_val, max_val) = (100, -1)`, updating with the per-pixel channel
min / max. -/
def getRGBImageMinMax (image : ImageRGB) : ℚ × ℚ :=
  (List.range image.height).foldl (fun acc (y : ℕ) =>
    (List.range image.width).foldl (fun acc2 (x : ℕ) =>
      let val := image.data (↑x) (↑y)
      let max_rgb := max (max val.r val.g) val.b
      let min_rgb := min (min val.r val.g) val.b
      (if min_rgb < acc2.1 then min_rgb else acc2.1,
       if max_rgb > acc2.2 then max_rgb else acc2.2)) acc) (100, -1)

/-- `normalizeRGBImage` lines 66-89: per pixel
`(val - min) / (max - min)` per channel, with the minimum and maximum
taken from `getRGBImageMinMax`.  The division is the exact rational one
(Lean's convention `q / 0 = 0` is never relied upon by the theorems
below; the zero-divisor case is treated by `normalizeRGBImageIEEE`). -/
def normalizeRGBImage (image : ImageRGB) : ImageRGB :=
  let min_max := getRGBImageMinMax image
  { width := image.width, height := image.height,
    data := fun x y =>
      if inBounds image.width image.height x y then
        let val := image.data x y
        ⟨(val.r - min_max.1) / (min_max.2 - min_max.1),
         (val.g - min_max.1) / (min_max.2 - min_max.1),
         (val.b - min_max.1) / (min_max.2 - min_max.1)⟩
      else ⟨0, 0, 0⟩ }

/-- IEEE-faithful view of `normalizeRGBImage`'s division: the source
divides by `min_max.y - min_max.x` unconditionally (lines 82), and in
C++ `float` arithmetic a zero divisor yields NaN (`0/0`) on every
channel equal to the minimum — the result is then not a rational-valued
image at all.  This is modelled by returning `none` exactly when the
min-max range is zero. -/
def normalizeRGBImageIEEE (image : ImageRGB) : Option ImageRGB :=
  let min_max := getRGBImageMinMax image
  if min_max.2 - min_max.1 = 0 then none
  else some (normalizeRGBImage image)

/-- `applyGamma` lines 91-116, with the library `pow` abstracted as `P`.
The function computes `normalizeRGBImage image` into `Inorm` (line 95)
but then reads the original pixel (line 101; the normalized read on
line 102 is commented out in the source). -/
def applyGamma (P : ℚ → ℚ → ℚ) (image : ImageRGB) (gamma : ℚ) : ImageRGB :=
  let Inorm := normalizeRGBImage image
  { width := image.width, height := image.height,
    data := fun x y =>
      if inBounds image.width image.height x y then
        let val := image.data x y
        ⟨P val.r gamma, P val.g gamma, P val.b gamma⟩
      else ⟨0, 0, 0⟩ }

/-- `applyDurandToneMappingOperator` lines 232-254, with the library
`exp` abstracted as `E`.  Per pixel the source computes, in order:
`f = b_val * base_scale`, `f += d_val`, `f = exp(f)`,
`f *= output_gain`. -/
def applyDurandToneMappingOperator (E : ℚ → ℚ)
    (base_layer detail_layer : ImageFloat)
    (base_scale output_gain : ℚ) : ImageFloat :=
  { width := base_layer.width, height := base_layer.height,
    data := fun x y =>
      if inBounds base_layer.width base_layer.height x y then
        let b_val := base_layer.data x y
        let d_val := detail_layer.data x y
        let f1 := b_val * base_scale
        let f2 := f1 + d_val
        let f3 := E f2
        let f4 := f3 * output_gain
        f4
      else 0 }

/-- `bilateralFilter` lines 158-220, with the library `exp` abstracted
as `E`.  `radius = size / 2` (integer division); the spatial-weight
table holds `E(-(i² + j²) / (2 σs²))` at entry `(i + radius, j + radius)`;
per pixel the kernel sums, over the in-bounds neighbours only,
`weight = spatialWeights[dy+radius][dx+radius] · E(-(val-n_val)²/(2 σr²))`
into the normalisation factor `K` and `weight · n_val` into the
accumulator, and outputs their quotient.  (The C++ `assert(size % 2 == 1)`
is a precondition carried by the theorems, not by the definition.) -/
def bilateralFilter (E : ℚ → ℚ) (H : ImageFloat) (size : ℕ)
    (space_sigma range_sigma : ℚ) : ImageFloat :=
  let radius : ℤ := (size / 2 : ℕ)
  let spatialWeights : ℤ → ℤ → ℚ := fun i j =>
    E (((-(i * i + j * j) : ℤ) : ℚ) / (2 * space_sigma * space_sigma))
  { width := H.width, height := H.height,
    data := fun x y =>
      if inBounds H.width H.height x y then
        let val := H.data x y
        let K : ℚ := ∑ dy ∈ Finset.Icc (-radius) radius,
          ∑ dx ∈ Finset.Icc (-radius) radius,
            if inBounds H.width H.height (x + dx) (y + dy) then
              let n_val := H.data (x + dx) (y + dy)
              spatialWeights dy dx *
                E (-(val - n_val) * (val - n_val) / (2 * range_sigma * range_sigma))
            else 0
        let filteredValue : ℚ := ∑ dy ∈ Finset.Icc (-radius) radius,
          ∑ dx ∈ Finset.Icc (-radius) radius,
            if inBounds H.width H.height (x + dx) (y + dy) then
              let n_val := H.data (x + dx) (y + dy)
              spatialWeights dy dx *
                E (-(val - n_val) * (val - n_val) / (2 * range_sigma * range_sigma)) * n_val
            else 0
        filteredValue / K
      else 0 }

/-- `getGradients` lines 319-352: output sized `(width+1) × (height+1)`,
the loop writes `dx(x,y) = image(x+1,y) - image(x,y)` when `x+1 < width`
else `0` (similarly `dy`) at every `0 ≤ x < width`, `0 ≤ y < height`;
the extra row and column keep the fresh image's zero fill. -/
def getGradients (image : ImageFloat) : ImageGradient :=
  { dx := { width := image.width + 1, height := image.height + 1,
            data := fun x y =>
              if inBounds image.width image.height x y then
                if x + 1 < (image.width : ℤ) then
                  image.data (x + 1) y - image.data x y
                else 0
              else 0 },
    dy := { width := image.width + 1, height := image.height + 1,
            data := fun x y =>
              if inBounds image.width image.height x y then
                if y + 1 < (image.height : ℤ) then
                  image.data x (y + 1) - image.data x y
                else 0
              else 0 } }

/-- `copySourceGradientsToTarget` lines 366-430: the result is sized
from `target.dx`; the loop runs over the mask's domain, selects source
gradients where `mask > 0.5` else target gradients, then independently
zeroes `dx` when the `mask > 0.5` classification differs from the left
or right neighbour (checked only when that neighbour exists) and `dy`
when it differs from the neighbour below or above.  Positions outside
the mask's domain keep the fresh image's zero fill. -/
def copySourceGradientsToTarget (source target : ImageGradient)
    (source_mask : ImageFloat) : ImageGradient :=
  let W := source_mask.width
  let Hh := source_mask.height
  let dxData : ℤ → ℤ → ℚ := fun x y =>
    if inBounds W Hh x y then
      let mask_val := source_mask.data x y
      let v0 := if mask_val > 1/2 then source.dx.data x y else target.dx.data x y
      let v1 := if 0 < x ∧
          ¬((mask_val > 1/2) ↔ (source_mask.data (x - 1) y > 1/2)) then 0 else v0
      let v2 := if x < (W : ℤ) - 1 ∧
          ¬((mask_val > 1/2) ↔ (source_mask.data (x + 1) y > 1/2)) then 0 else v1
      v2
    else 0
  let dyData : ℤ → ℤ → ℚ := fun x y =>
    if inBounds W Hh x y then
      let mask_val := source_mask.data x y
      let v0 := if mask_val > 1/2 then source.dy.data x y else target.dy.data x y
      let v1 := if 0 < y ∧
          ¬((mask_val > 1/2) ↔ (source_mask.data x (y - 1) > 1/2)) then 0 else v0
      let v2 := if y < (Hh : ℤ) - 1 ∧
          ¬((mask_val > 1/2) ↔ (source_mask.data x (y + 1) > 1/2)) then 0 else v1
      v2
    else 0
  { dx := { width := target.dx.width, height := target.dx.height, data := dxData },
    dy := { width := target.dx.width, height := target.dx.height, data := dyData } }

/-- `getDivergence` lines 442-467: output sized one larger per axis than
the gradients; the loop runs over `0 ≤ x < gradients.dx.width`,
`0 ≤ y < gradients.dy.height` and writes
`div(x,y) = dx(x,y) - [x>0] dx(x-1,y) + dy(x,y) - [y>0] dy(x,y-1)`;
the extra row and column keep the fresh image's zero fill. -/
def getDivergence (gradients : ImageGradient) : ImageFloat :=
  { width := gradients.dx.width + 1, height := gradients.dx.height + 1,
    data := fun x y =>
      if 0 ≤ x ∧ x < (gradients.dx.width : ℤ) ∧
         0 ≤ y ∧ y < (gradients.dy.height : ℤ) then
        let div_x := gradients.dx.data x y -
          (if 0 < x then gradients.dx.data (x - 1) y else 0)
        let div_y := gradients.dy.data x y -
          (if 0 < y then gradients.dy.data x (y - 1) else 0)
        div_x + div_y
      else 0 }

/-- One full pass of `solvePoisson`'s per-iteration pixel loop
(lines 496-510): every in-range pixel of the next buffer is written from
the current buffer `I` — border pixels (`x = 0 ∨ y = 0 ∨ x = width-1 ∨
y = height-1`) are copied, interior pixels get the Jacobi update
`0.25 (I(x+1,y) + I(x-1,y) + I(x,y+1) + I(x,y-1) - div(x,y))`; positions
outside the image keep the next buffer's previous content. -/
def poissonPass (divergence_G I I_next : ImageFloat) : ImageFloat :=
  { width := I.width, height := I.height,
    data := fun x y =>
      if inBounds I.width I.height x y then
        if x = 0 ∨ y = 0 ∨ x = (I.width : ℤ) - 1 ∨ y = (I.height : ℤ) - 1 then
          I.data x y
        else
          (1/4 : ℚ) * (I.data (x + 1) y + I.data (x - 1) y +
            I.data x (y + 1) + I.data x (y - 1) - divergence_G.data x y)
      else I_next.data x y }

/-- The iteration loop of `solvePoisson` (lines 488-515) under its
sequential elaboration: one iteration writes the whole next buffer by
`poissonPass` and then `std::swap(I, I_next)` exchanges the two buffer
names; after the last swap the first buffer is returned. -/
def solvePoissonLoop (divergence_G : ImageFloat) :
    ℕ → ImageFloat → ImageFloat → ImageFloat
  | 0, I, _ => I
  | n + 1, I, I_next => solvePoissonLoop divergence_G n (poissonPass divergence_G I I_next) I

/-- `solvePoisson` lines 477-519 (sequential elaboration): start from a
copy of `initial_solution` and a freshly zeroed second buffer, run
`num_iters` pass-and-swap iterations, return the final current buffer.
(The progress print every 500 iterations has no effect on values and is
omitted.) -/
def solvePoisson (initial_solution divergence_G : ImageFloat)
    (num_iters : ℕ) : ImageFloat :=
  solvePoissonLoop divergence_G num_iters initial_solution
    (ImageFloat.ofSize initial_solution.width initial_solution.height)

/-- The mathematical Jacobi step the spec describes (§4.5): a pure
function of the current field alone — border pixels copied, interior
pixels given the four-neighbour update.  Used to state that the
two-buffer loop of `solvePoisson` refines iteration of this step. -/
def jacobiStep (divergence_G I : ImageFloat) : ImageFloat :=
  { width := I.width, height := I.height,
    data := fun x y =>
      if inBounds I.width I.height x y then
        if x = 0 ∨ y = 0 ∨ x = (I.width : ℤ) - 1 ∨ y = (I.height : ℤ) - 1 then
          I.data x y
        else
          (1/4 : ℚ) * (I.data (x + 1) y + I.data (x - 1) y +
            I.data x (y + 1) + I.data x (y - 1) - divergence_G.data x y)
      else 0 }

/-!  Concrete input fields used by the witness theorems. -/

/-- A 3 × 3 test field with `X(x,y) = x² + y²`. -/
def fieldX3 : ImageFloat :=
  { width := 3, height := 3, data := fun x y => ((x * x + y * y : ℤ) : ℚ) }

/-- C1: for every scalar image `X` and every interior point
(`1 ≤ x ≤ width-2`, `1 ≤ y ≤ height-2`), the composition
`getDivergence (getGradients X)` equals the 5-point discrete Laplacian
`X(x+1,y) + X(x-1,y) + X(x,y+1) + X(x,y-1) - 4·X(x,y)`. -/
theorem divergence_of_gradients_is_laplacian (X : ImageFloat) (x y : ℤ)
    (hx1 : 1 ≤ x) (hx2 : x ≤ (X.width : ℤ) - 2)
    (hy1 : 1 ≤ y) (hy2 : y ≤ (X.height : ℤ) - 2) :
    (getDivergence (getGradients X)).data x y =
      X.data (x + 1) y + X.data (x - 1) y + X.data x (y + 1) + X.data x (y - 1)
        - 4 * X.data x y := by
  have e1 : x - 1 + 1 = x := by ring
  have e2 : y - 1 + 1 = y := by ring
  have hdx0 : (getGradients X).dx.data x y = X.data (x + 1) y - X.data x y := by
    simp only [getGradients]
    rw [if_pos (by omega : inBounds X.width X.height x y),
        if_pos (by omega : x + 1 < (X.width : ℤ))]
  have hdx1 : (getGradients X).dx.data (x - 1) y = X.data x y - X.data (x - 1) y := by
    simp only [getGradients]
    rw [if_pos (by omega : inBounds X.width X.height (x - 1) y),
        if_pos (by omega : x - 1 + 1 < (X.width : ℤ)), e1]
  have hdy0 : (getGradients X).dy.data x y = X.data x (y + 1) - X.data x y := by
    simp only [getGradients]
    rw [if_pos (by omega : inBounds X.width X.height x y),
        if_pos (by omega : y + 1 < (X.height : ℤ))]
  have hdy1 : (getGradients X).dy.data x (y - 1) = X.data x y - X.data x (y - 1) := by
    simp only [getGradients]
    rw [if_pos (by omega : inBounds X.width X.height x (y - 1)),
        if_pos (by omega : y - 1 + 1 < (X.height : ℤ)), e2]
  have hc : 0 ≤ x ∧ x < ((getGradients X).dx.width : ℤ) ∧
      0 ≤ y ∧ y < ((getGradients X).dy.height : ℤ) := by
    simp only [getGradients]; push_cast; omega
  simp only [getDivergence]
  rw [if_pos hc, if_pos (by omega : (0:ℤ) < x), if_pos (by omega : (0:ℤ) < y),
      hdx0, hdx1, hdy0, hdy1]
  ring

/-- Witness for C1: on the 3 × 3 field `x² + y²` the composed operator
gives `5 + 1 + 5 + 1 - 4·2 = 4` at the interior point `(1,1)`. -/
theorem divergence_of_gradients_is_laplacian_witness :
    (getDivergence (getGradients fieldX3)).data 1 1 = 4 := by
  rw [divergence_of_gradients_is_laplacian fieldX3 1 1 (by norm_num)
    (by norm_num [fieldX3]) (by norm_num) (by norm_num [fieldX3])]
  norm_num [fieldX3]

/-- C7: `applyDurandToneMappingOperator` computes, at every in-range
pixel, `output_gain · exp(base_scale · base(x,y) + detail(x,y))` — the
base is scaled before the detail is added, and the sum goes through
`exp` before the gain multiplies — for any interpretation `E` of the
library `exp`. -/
theorem applyDurand_gain_exp_scale (E : ℚ → ℚ)
    (base_layer detail_layer : ImageFloat) (base_scale output_gain : ℚ)
    (x y : ℤ) (h : inBounds base_layer.width base_layer.height x y) :
    (applyDurandToneMappingOperator E base_layer detail_layer base_scale output_gain).data x y
      = output_gain * E (base_scale * base_layer.data x y + detail_layer.data x y) := by
  simp only [applyDurandToneMappingOperator]
  rw [if_pos h, mul_comm (base_layer.data x y) base_scale,
    mul_comm (E (base_scale * base_layer.data x y + detail_layer.data x y)) output_gain]

/-- A 1 × 1 base layer of value 2. -/
def baseA : ImageFloat := { width := 1, height := 1, data := fun _ _ => 2 }

/-- A 1 × 1 detail layer of value 3. -/
def detailA : ImageFloat := { width := 1, height := 1, data := fun _ _ => 3 }

/-- Witness for C7: with `E q = q + 1`, base 2, detail 3, scale 5 and
gain 7 the output pixel is `7 · ((5·2 + 3) + 1) = 98`. -/
theorem applyDurand_gain_exp_scale_witness :
    (applyDurandToneMappingOperator (fun q => q + 1) baseA detailA 5 7).data 0 0 = 98 := by
  rw [applyDurand_gain_exp_scale (fun q => q + 1) baseA detailA 5 7 0 0 (by decide)]
  norm_num [baseA, detailA]

/-- C10: `applyGamma` returns at each in-range pixel the per-channel
power of the *original* input pixel; the normalized image it computes
internally does not influence the result — for any interpretation `P`
of the library `pow`. -/
theorem applyGamma_powers_original_pixels (P : ℚ → ℚ → ℚ) (image : ImageRGB)
    (gamma : ℚ) (x y : ℤ) (h : inBounds image.width image.height x y) :
    (applyGamma P image gamma).data x y =
      ⟨P (image.data x y).r gamma, P (image.data x y).g gamma,
       P (image.data x y).b gamma⟩ := by
  simp only [applyGamma]
  rw [if_pos h]

/-- A 1 × 1 RGB image with pixel (2, 3, 4). -/
def imageA : ImageRGB := { width := 1, height := 1, data := fun _ _ => ⟨2, 3, 4⟩ }

/-- Witness for C10: with `P b e = b·b + e` and `gamma = 10` the single
pixel (2, 3, 4) maps to (14, 19, 26) — computed from the original
pixel, not the normalized one. -/
theorem applyGamma_powers_original_pixels_witness :
    (applyGamma (fun b e => b * b + e) imageA 10).data 0 0 = ⟨14, 19, 26⟩ := by
  rw [applyGamma_powers_original_pixels (fun b e => b * b + e) imageA 10 0 0
    (by decide)]
  norm_num [imageA]

/-- The two-buffer loop never changes a border pixel of the current
buffer: every pass copies the border from the current buffer, so the
border of the returned field is the border of the field the loop
started from. -/
theorem solvePoissonLoop_border_fixed (div : ImageFloat) :
    ∀ (n : ℕ) (I I_next : ImageFloat) (x y : ℤ),
      inBounds I.width I.height x y →
      (x = 0 ∨ y = 0 ∨ x = (I.width : ℤ) - 1 ∨ y = (I.height : ℤ) - 1) →
      (solvePoissonLoop div n I I_next).data x y = I.data x y := by
  intro n
  induction n with
  | zero => intro I In x y _ _; rfl
  | succ n ih =>
    intro I In x y hin hb
    have hstep : (poissonPass div I In).data x y = I.data x y := by
      simp only [poissonPass]
      rw [if_pos hin, if_pos hb]
    calc (solvePoissonLoop div (n + 1) I In).data x y
        = (solvePoissonLoop div n (poissonPass div I In) I).data x y := rfl
      _ = (poissonPass div I In).data x y := ih (poissonPass div I In) I x y hin hb
      _ = I.data x y := hstep

/-- C2: for every initial solution, divergence field and iteration
count, `solvePoisson` leaves every border pixel (`x = 0`, `y = 0`,
`x = width-1` or `y = height-1`) equal to the corresponding pixel of
the initial solution. -/
theorem solvePoisson_border_pixels_fixed
    (initial_solution divergence_G : ImageFloat) (num_iters : ℕ) (x y : ℤ)
    (hin : inBounds initial_solution.width initial_solution.height x y)
    (hb : x = 0 ∨ y = 0 ∨ x = (initial_solution.width : ℤ) - 1 ∨
          y = (initial_solution.height : ℤ) - 1) :
    (solvePoisson initial_solution divergence_G num_iters).data x y =
      initial_solution.data x y :=
  solvePoissonLoop_border_fixed divergence_G num_iters initial_solution
    (ImageFloat.ofSize initial_solution.width initial_solution.height) x y hin hb

/-- Witness for C2: on the 3 × 3 field `x² + y²` (used both as initial
guess and divergence), the border pixel `(0, 1)` still holds its
initial value `1` after two iterations. -/
theorem solvePoisson_border_pixels_fixed_witness :
    (solvePoisson fieldX3 fieldX3 2).data 0 1 = 1 := by
  rw [solvePoisson_border_pixels_fixed fieldX3 fieldX3 2 0 1 (by decide)
    (by decide)]
  norm_num [fieldX3]

/-- The two-buffer pass-and-swap loop refines iteration of the pure
Jacobi step: if the starting current buffer agrees in range with a
field `K` of the same dimensions, then after `n` loop iterations the
current buffer agrees in range with `jacobiStep^[n] K` — the next
buffer's stale content never leaks into an in-range pixel. -/
theorem solvePoissonLoop_refines (div : ImageFloat) :
    ∀ (n : ℕ) (I I_next K : ImageFloat),
      I.width = K.width → I.height = K.height →
      (∀ x y : ℤ, inBounds I.width I.height x y → I.data x y = K.data x y) →
      ∀ x y : ℤ, inBounds I.width I.height x y →
        (solvePoissonLoop div n I I_next).data x y
          = ((jacobiStep div)^[n] K).data x y := by
  intro n
  induction n with
  | zero => intro I In K _ _ hag x y hin; simpa using hag x y hin
  | succ n ih =>
    intro I In K hw hh hag x y hin
    have hw2 : (poissonPass div I In).width = (jacobiStep div K).width := hw
    have hh2 : (poissonPass div I In).height = (jacobiStep div K).height := hh
    have hag2 : ∀ a b : ℤ,
        inBounds (poissonPass div I In).width (poissonPass div I In).height a b →
        (poissonPass div I In).data a b = (jacobiStep div K).data a b := by
      intro a b hab
      have hab' : inBounds I.width I.height a b := hab
      simp only [poissonPass, jacobiStep]
      rw [← hw, ← hh]
      rw [if_pos hab', if_pos hab']
      by_cases hbd : a = 0 ∨ b = 0 ∨ a = (I.width : ℤ) - 1 ∨ b = (I.height : ℤ) - 1
      · rw [if_pos hbd, if_pos hbd]
        exact hag a b hab'
      · rw [if_neg hbd, if_neg hbd]
        rw [hag (a + 1) b (by omega), hag (a - 1) b (by omega),
            hag a (b + 1) (by omega), hag a (b - 1) (by omega)]
    calc (solvePoissonLoop div (n + 1) I In).data x y
        = (solvePoissonLoop div n (poissonPass div I In) I).data x y := rfl
      _ = ((jacobiStep div)^[n] (jacobiStep div K)).data x y :=
          ih (poissonPass div I In) I (jacobiStep div K) hw2 hh2 hag2 x y hin
      _ = ((jacobiStep div)^[n + 1] K).data x y := by
          rw [Function.iterate_succ_apply]

/-- C9 (sequential elaboration): `solvePoisson` computes, at every
in-range pixel, exactly the `num_iters`-fold iterate of the pure Jacobi
step applied to the initial solution — each iteration reads only the
previous iteration's values, never a value updated within the same
iteration. -/
theorem solvePoisson_refines_pure_jacobi
    (initial_solution divergence_G : ImageFloat) (num_iters : ℕ) (x y : ℤ)
    (hin : inBounds initial_solution.width initial_solution.height x y) :
    (solvePoisson initial_solution divergence_G num_iters).data x y
      = ((jacobiStep divergence_G)^[num_iters] initial_solution).data x y :=
  solvePoissonLoop_refines divergence_G num_iters initial_solution
    (ImageFloat.ofSize initial_solution.width initial_solution.height)
    initial_solution rfl rfl (fun _ _ _ => rfl) x y hin

/-- Witness for C9: one iteration on the 3 × 3 field `x² + y²` (also
used as divergence) gives `0.25·(5 + 1 + 5 + 1 - 2) = 5/2` at the
interior pixel `(1,1)`, the value of one pure Jacobi step. -/
theorem solvePoisson_refines_pure_jacobi_witness :
    (solvePoisson fieldX3 fieldX3 1).data 1 1 = 5/2 := by
  rw [solvePoisson_refines_pure_jacobi fieldX3 fieldX3 1 1 1 (by decide)]
  rw [Function.iterate_one]
  norm_num [jacobiStep, fieldX3]

/-- A quotient `F / K` with `F = v·K` and `K > 0` equals `v`. -/
theorem div_eq_of_eq_mul_of_pos (v F K : ℚ) (h : F = v * K) (hpos : 0 < K) :
    F / K = v := by
  rw [h, mul_div_assoc, div_self (ne_of_gt hpos), mul_one]

/-- C8: on a flat field of constant value `v`, `bilateralFilter` returns
`v` at every in-range pixel, for every odd kernel size, all positive
sigmas and any positive-valued interpretation `E` of the library `exp`:
out-of-bounds neighbours are skipped from both the accumulator and the
normalisation factor, so the weighted average of a constant is that
constant. -/
theorem bilateralFilter_flat_is_identity (E : ℚ → ℚ) (hE : ∀ q, 0 < E q)
    (H : ImageFloat) (v : ℚ)
    (hflat : ∀ x y : ℤ, inBounds H.width H.height x y → H.data x y = v)
    (size : ℕ) (hodd : size % 2 = 1)
    (space_sigma range_sigma : ℚ) (hs : 0 < space_sigma) (hr : 0 < range_sigma)
    (x y : ℤ) (hin : inBounds H.width H.height x y) :
    (bilateralFilter E H size space_sigma range_sigma).data x y = v := by
  have hr0 : (0 : ℤ) ≤ ((size / 2 : ℕ) : ℤ) := Int.ofNat_nonneg _
  simp only [bilateralFilter]
  rw [if_pos hin]
  simp only [hflat x y hin]
  apply div_eq_of_eq_mul_of_pos
  · rw [Finset.mul_sum]
    refine Finset.sum_congr rfl fun dy _ => ?_
    rw [Finset.mul_sum]
    refine Finset.sum_congr rfl fun dx _ => ?_
    by_cases hb : inBounds H.width H.height (x + dx) (y + dy)
    · rw [if_pos hb, if_pos hb, hflat _ _ hb]
      ring
    · rw [if_neg hb, if_neg hb, mul_zero]
  · refine Finset.sum_pos'
      (fun i _ => Finset.sum_nonneg fun j _ => ?_) ⟨0, ?_, ?_⟩
    · split_ifs
      · exact le_of_lt (mul_pos (hE _) (hE _))
      · exact le_rfl
    · simp only [Finset.mem_Icc]
      omega
    · refine Finset.sum_pos' (fun j _ => ?_) ⟨0, ?_, ?_⟩
      · split_ifs
        · exact le_of_lt (mul_pos (hE _) (hE _))
        · exact le_rfl
      · simp only [Finset.mem_Icc]
        omega
      · rw [if_pos (by simpa using hin : inBounds H.width H.height (x + 0) (y + 0))]
        exact mul_pos (hE _) (hE _)

/-- A 3 × 3 flat field of value 2. -/
def fieldFlat2 : ImageFloat := { width := 3, height := 3, data := fun _ _ => 2 }

/-- Witness for C8: the bilateral filter with kernel size 3 and unit
sigmas leaves the flat field of value 2 unchanged at pixel (1,1), for
the positive interpretation `E q = 1`. -/
theorem bilateralFilter_flat_is_identity_witness :
    (bilateralFilter (fun _ => 1) fieldFlat2 3 1 1).data 1 1 = 2 :=
  bilateralFilter_flat_is_identity (fun _ => 1) (fun _ => one_pos) fieldFlat2 2
    (fun _ _ _ => rfl) 3 rfl 1 1 one_pos one_pos 1 1 (by decide)

/-- A 1 × 1 mask of value 1 (source everywhere). -/
def maskOne : ImageFloat := { width := 1, height := 1, data := fun _ _ => 1 }

/-- A 2 × 2 gradient pair with all components 1. -/
def gradOnesA : ImageGradient :=
  { dx := { width := 2, height := 2, data := fun _ _ => 1 },
    dy := { width := 2, height := 2, data := fun _ _ => 1 } }

/-- A 2 × 2 gradient pair with all components 0. -/
def gradZerosA : ImageGradient :=
  { dx := { width := 2, height := 2, data := fun _ _ => 0 },
    dy := { width := 2, height := 2, data := fun _ _ => 0 } }

/-- Counterexample to C6 as stated: with a 1 × 1 all-source mask and
2 × 2 gradient fields, the loop only covers the mask's 1 × 1 domain, so
the returned field holds its zero fill — not the source's value 1 — at
the padding position (1,0) of the gradient field. -/
theorem copySourceGradients_not_always_source :
    (copySourceGradientsToTarget gradOnesA gradZerosA maskOne).dx.data 1 0 ≠
      gradOnesA.dx.data 1 0 := by
  norm_num [copySourceGradientsToTarget, gradOnesA, maskOne]

/-- C6 (amended): when every mask value exceeds 0.5, the merged
gradient equals the source gradient exactly — with no component
zeroed — at every position inside the mask's domain; positions outside
the mask's domain (the padding row/column of the oversized gradient
fields) keep the result's zero fill. -/
theorem copySourceGradients_allSource_eq_source
    (source target : ImageGradient) (source_mask : ImageFloat)
    (hmask : ∀ x y : ℤ, inBounds source_mask.width source_mask.height x y →
      source_mask.data x y > 1/2) :
    ∀ x y : ℤ,
      (copySourceGradientsToTarget source target source_mask).dx.data x y =
        (if inBounds source_mask.width source_mask.height x y
          then source.dx.data x y else 0) ∧
      (copySourceGradientsToTarget source target source_mask).dy.data x y =
        (if inBounds source_mask.width source_mask.height x y
          then source.dy.data x y else 0) := by
  intro x y
  by_cases hin : inBounds source_mask.width source_mask.height x y
  · have hm : source_mask.data x y > 1/2 := hmask x y hin
    have hR : ¬(x < (source_mask.width : ℤ) - 1 ∧
        ¬(source_mask.data x y > 1/2 ↔ source_mask.data (x + 1) y > 1/2)) := by
      rintro ⟨h1, h2⟩
      exact h2 (iff_of_true hm (hmask (x + 1) y (by omega)))
    have hL : ¬(0 < x ∧
        ¬(source_mask.data x y > 1/2 ↔ source_mask.data (x - 1) y > 1/2)) := by
      rintro ⟨h1, h2⟩
      exact h2 (iff_of_true hm (hmask (x - 1) y (by omega)))
    have hU : ¬(y < (source_mask.height : ℤ) - 1 ∧
        ¬(source_mask.data x y > 1/2 ↔ source_mask.data x (y + 1) > 1/2)) := by
      rintro ⟨h1, h2⟩
      exact h2 (iff_of_true hm (hmask x (y + 1) (by omega)))
    have hD : ¬(0 < y ∧
        ¬(source_mask.data x y > 1/2 ↔ source_mask.data x (y - 1) > 1/2)) := by
      rintro ⟨h1, h2⟩
      exact h2 (iff_of_true hm (hmask x (y - 1) (by omega)))
    constructor
    · simp only [copySourceGradientsToTarget]
      rw [if_pos hin, if_pos hin, if_neg hR, if_neg hL, if_pos hm]
    · simp only [copySourceGradientsToTarget]
      rw [if_pos hin, if_pos hin, if_neg hU, if_neg hD, if_pos hm]
  · constructor
    · simp only [copySourceGradientsToTarget]
      rw [if_neg hin, if_neg hin]
    · simp only [copySourceGradientsToTarget]
      rw [if_neg hin, if_neg hin]

/-- Witness for the amended C6: with the all-source 1 × 1 mask, the
in-domain pixel (0,0) of the merged dx field equals the source value 1. -/
theorem copySourceGradients_allSource_eq_source_witness :
    (copySourceGradientsToTarget gradOnesA gradZerosA maskOne).dx.data 0 0 = 1 := by
  have h := (copySourceGradients_allSource_eq_source gradOnesA gradZerosA maskOne
    (fun _ _ _ => by norm_num [maskOne]) 0 0).1
  rw [h, if_pos (by decide : inBounds maskOne.width maskOne.height 0 0)]
  norm_num [gradOnesA]

/-- A 1 × 1 constant image of value (200, 200, 200): all channels above
the sentinel minimum 100. -/
def imageC200 : ImageRGB := { width := 1, height := 1, data := fun _ _ => ⟨200, 200, 200⟩ }

/-- C3 at the failing input: on the constant image of value 200,
`getRGBImageMinMax` returns `(100, 200)` — the stale sentinel `100` as
the minimum, not the constant value 200 the claim requires. -/
theorem getRGBImageMinMax_sentinel_failure :
    getRGBImageMinMax imageC200 = (100, 200) := by
  norm_num [getRGBImageMinMax, imageC200, List.range_succ, max_self, min_self]

/-- A 2 × 1 image with pixels (150,150,150) and (200,200,200): the
global minimum 150 exceeds the sentinel 100. -/
def imageC150 : ImageRGB :=
  { width := 2, height := 1,
    data := fun x _ => if x = 0 then ⟨150, 150, 150⟩ else ⟨200, 200, 200⟩ }

/-- C4 at the failing input: the pixel attaining the global minimum 150
is mapped to `(150-100)/(200-100) = 1/2`, not to `0.0`, because the
min/max pass returned the sentinel `100` as the minimum. -/
theorem normalizeRGBImage_sentinel_failure :
    (normalizeRGBImage imageC150).data 0 0 = ⟨1/2, 1/2, 1/2⟩ := by
  norm_num [normalizeRGBImage, getRGBImageMinMax, imageC150, List.range_succ,
    max_self, min_self]

/-- The per-pixel min/max accumulator update for a pixel whose three
channels all equal `c`. -/
def minmaxUpdate (c : ℚ) (b : ℚ × ℚ) : ℚ × ℚ :=
  (if c < b.1 then c else b.1, if c > b.2 then c else b.2)

/-- Updating the accumulator twice with the same value is the same as
updating once. -/
theorem minmaxUpdate_idem (c : ℚ) (b : ℚ × ℚ) :
    minmaxUpdate c (minmaxUpdate c b) = minmaxUpdate c b := by
  simp only [minmaxUpdate, Prod.mk.injEq]
  constructor <;> split_ifs <;> first | rfl | linarith

/-- From the sentinel start `(100, -1)`, one update with a value
`c ∈ [-1, 100]` reaches `(c, c)`. -/
theorem minmaxUpdate_sentinel (c : ℚ) (hlo : -1 ≤ c) (hhi : c ≤ 100) :
    minmaxUpdate c (100, -1) = (c, c) := by
  simp only [minmaxUpdate, Prod.mk.injEq]
  constructor <;> split_ifs <;> first | rfl | linarith

/-- A left fold whose step acts as a fixed idempotent function `u` on
every list element fixes `u b`. -/
theorem foldl_fixed_of_mem {α : Type} (f : ℚ × ℚ → α → ℚ × ℚ)
    (u : ℚ × ℚ → ℚ × ℚ) (hu : ∀ b, u (u b) = u b) :
    ∀ (l : List α), (∀ a ∈ l, ∀ b, f b a = u b) →
      ∀ b, l.foldl f (u b) = u b := by
  intro l
  induction l with
  | nil => intro _ b; rfl
  | cons a t ih =>
    intro h b
    rw [List.foldl_cons, h a (List.mem_cons_self a t), hu]
    exact ih (fun a' ha' => h a' (List.mem_cons_of_mem _ ha')) b

/-- A left fold over a non-empty list whose step acts as a fixed
idempotent function `u` computes `u` of the start accumulator. -/
theorem foldl_fixed_of_ne_nil {α : Type} (f : ℚ × ℚ → α → ℚ × ℚ)
    (u : ℚ × ℚ → ℚ × ℚ) (hu : ∀ b, u (u b) = u b)
    (l : List α) (hl : l ≠ [])
    (h : ∀ a ∈ l, ∀ b, f b a = u b) (b : ℚ × ℚ) :
    l.foldl f b = u b := by
  obtain ⟨a, t, rfl⟩ := List.exists_cons_of_ne_nil hl
  rw [List.foldl_cons, h a (List.mem_cons_self a t)]
  exact foldl_fixed_of_mem f u hu t
    (fun a' ha' => h a' (List.mem_cons_of_mem _ ha')) b

/-- On a non-empty constant image of value `c ∈ [-1, 100]`, the min/max
pass returns `(c, c)`: every pixel applies the same idempotent
accumulator update, which maps the sentinel `(100, -1)` to `(c, c)`. -/
theorem getRGBImageMinMax_flat (image : ImageRGB) (c : ℚ)
    (hW : 0 < image.width) (hH : 0 < image.height)
    (hflat : ∀ x y : ℤ, inBounds image.width image.height x y →
      image.data x y = ⟨c, c, c⟩)
    (hlo : -1 ≤ c) (hhi : c ≤ 100) :
    getRGBImageMinMax image = (c, c) := by
  have hWne : List.range image.width ≠ [] := by
    simp only [ne_eq, List.range_eq_nil]
    omega
  have hHne : List.range image.height ≠ [] := by
    simp only [ne_eq, List.range_eq_nil]
    omega
  have hrow : ∀ y ∈ List.range image.height, ∀ b : ℚ × ℚ,
      (List.range image.width).foldl (fun acc2 (x : ℕ) =>
        let val := image.data (↑x) (↑y)
        let max_rgb := max (max val.r val.g) val.b
        let min_rgb := min (min val.r val.g) val.b
        (if min_rgb < acc2.1 then min_rgb else acc2.1,
         if max_rgb > acc2.2 then max_rgb else acc2.2)) b = minmaxUpdate c b := by
    intro y hy b
    refine foldl_fixed_of_ne_nil _ (minmaxUpdate c) (minmaxUpdate_idem c) _ hWne ?_ b
    intro a ha b'
    have h1 : a < image.width := List.mem_range.mp ha
    have h2 : y < image.height := List.mem_range.mp hy
    have hxy : image.data (↑a) (↑y) = ⟨c, c, c⟩ :=
      hflat _ _ ⟨by omega, by omega, by omega, by omega⟩
    simp only [hxy, min_self, max_self, minmaxUpdate]
  refine Eq.trans ?_ (minmaxUpdate_sentinel c hlo hhi)
  exact foldl_fixed_of_ne_nil _ (minmaxUpdate c) (minmaxUpdate_idem c)
    (List.range image.height) hHne hrow (100, -1)

/-- C5 (amended): for a non-empty constant image of value
`c ∈ [-1, 100]`, `normalizeRGBImage` raises no error but its divisor —
the min-max range — is exactly zero and the division is not guarded:
under IEEE semantics every channel is computed as `0/0`, i.e. NaN, so
no NaN-free output is produced. -/
theorem normalizeRGBImage_flat_unguarded_division (image : ImageRGB) (c : ℚ)
    (hW : 0 < image.width) (hH : 0 < image.height)
    (hflat : ∀ x y : ℤ, inBounds image.width image.height x y →
      image.data x y = ⟨c, c, c⟩)
    (hlo : -1 ≤ c) (hhi : c ≤ 100) :
    (getRGBImageMinMax image).2 - (getRGBImageMinMax image).1 = 0 ∧
      normalizeRGBImageIEEE image = none := by
  have h := getRGBImageMinMax_flat image c hW hH hflat hlo hhi
  constructor
  · rw [h]
    ring
  · simp only [normalizeRGBImageIEEE, h]
    norm_num

/-- A 1 × 1 constant image of value (1/2, 1/2, 1/2). -/
def imageHalf : ImageRGB :=
  { width := 1, height := 1, data := fun _ _ => ⟨1/2, 1/2, 1/2⟩ }

/-- Counterexample to C5 as stated: on the flat gray image the min-max
range is exactly zero yet the code divides by it (no guard exists), so
the IEEE-faithful result is NaN on every channel, not a defined
NaN/Inf-free output. -/
theorem normalizeRGBImage_flat_produces_nan :
    (getRGBImageMinMax imageHalf).2 - (getRGBImageMinMax imageHalf).1 = 0 ∧
      normalizeRGBImageIEEE imageHalf = none := by
  have h : getRGBImageMinMax imageHalf = (1/2, 1/2) := by
    norm_num [getRGBImageMinMax, imageHalf, List.range_succ, max_self, min_self]
  refine ⟨by rw [h]; ring, ?_⟩
  simp only [normalizeRGBImageIEEE, h]
  norm_num

/-- Witness for the amended C5 at the concrete flat gray image. -/
theorem normalizeRGBImage_flat_unguarded_division_witness :
    (getRGBImageMinMax imageHalf).2 - (getRGBImageMinMax imageHalf).1 = 0 ∧
      normalizeRGBImageIEEE imageHalf = none :=
  normalizeRGBImage_flat_unguarded_division imageHalf (1/2) (by decide)
    (by decide) (fun _ _ _ => rfl) (by norm_num) (by norm_num)
